import Mathlib

/-!
Shallow embedding of the memo-demo todo application (src/src/App.tsx).

The component keeps a counter (`count`), an ordered list of todo records
(`todos`) and a text input (`inputValue`).  `inputValue` is modelled as the
explicit `text` argument of `addTodo`, since the handler closes over it.
`Date.now()` is modelled as an explicit `now : Nat` argument supplied by the
environment at each `addTodo` call (milliseconds since the epoch).
-/

/-- A todo record, from the `Todo` type in App.tsx:
`{ id: number; text: string; completed: boolean }`. -/
structure Todo where
  id : Nat
  text : String
  completed : Bool
deriving DecidableEq

/-- JavaScript `String.prototype.trim`: remove whitespace from both ends of
the string.  (Lean's own `String.trim` is defined by well-founded recursion
on byte positions and does not reduce in the kernel, so the same operation is
given here directly on the character list.) -/
def jsTrim (s : String) : String :=
  ⟨List.reverse (List.dropWhile Char.isWhitespace
    (List.reverse (List.dropWhile Char.isWhitespace s.data)))⟩

/-- `addTodo` (App.tsx lines 97-107): if `inputValue.trim()` is truthy
(i.e. the trimmed text is non-empty), append `{ id: Date.now(),
text: inputValue, completed: false }` to the list; otherwise do nothing.
Note the stored `text` is the raw `inputValue`, not its trim. -/
def addTodo (inputValue : String) (now : Nat) (todos : List Todo) : List Todo :=
  if jsTrim inputValue ≠ "" then
    todos ++ [{ id := now, text := inputValue, completed := false }]
  else
    todos

/-- `toggleTodo` (App.tsx lines 110-116): map over the list, flipping
`completed` on every record whose id matches. -/
def toggleTodo (id : Nat) (todos : List Todo) : List Todo :=
  todos.map fun todo =>
    if todo.id = id then { todo with completed := !todo.completed } else todo

/-- `deleteTodo` (App.tsx lines 119-121): keep exactly the records whose id
differs from the given id (`prev.filter(todo => todo.id !== id)`). -/
def deleteTodo (id : Nat) (todos : List Todo) : List Todo :=
  todos.filter fun todo => todo.id != id

/-- `expensiveTodoComputation` (App.tsx lines 81-84): `todos.length * 100`. -/
def expensiveTodoComputation (todos : List Todo) : Nat :=
  todos.length * 100

/-- `completedTodosCount` (App.tsx lines 87-89):
`todos.filter(todo => todo.completed).length`. -/
def completedTodosCount (todos : List Todo) : Nat :=
  (todos.filter fun todo => todo.completed).length

/-- `totalCount` of the spec: the rendered `todos.length` (App.tsx line 191). -/
def totalCount (todos : List Todo) : Nat :=
  todos.length

/-- The component state relevant to the claims: the counter and the todo
list (the text input is modelled as the argument of `addTodo`). -/
structure AppState where
  count : Nat
  todos : List Todo
deriving DecidableEq

/-- The initial state: `useState(0)` and `useState<Todo[]>([])`. -/
def initialState : AppState :=
  { count := 0, todos := [] }

/-- `increment` (App.tsx lines 92-94): `setCount(c => c + 1)`. -/
def increment (s : AppState) : AppState :=
  { s with count := s.count + 1 }

/-- `addTodo` acting on the whole component state: only `todos` changes. -/
def appAddTodo (text : String) (now : Nat) (s : AppState) : AppState :=
  { s with todos := addTodo text now s.todos }

/-- `toggleTodo` acting on the whole component state: only `todos` changes. -/
def appToggleTodo (id : Nat) (s : AppState) : AppState :=
  { s with todos := toggleTodo id s.todos }

/-- `deleteTodo` acting on the whole component state: only `todos` changes. -/
def appDeleteTodo (id : Nat) (s : AppState) : AppState :=
  { s with todos := deleteTodo id s.todos }

/-- One user event dispatched to the component.  An `add` event carries the
typed text and the value `Date.now()` returned at that instant. -/
inductive Op where
  | increment : Op
  | add : String → Nat → Op
  | toggle : Nat → Op
  | delete : Nat → Op
deriving DecidableEq

/-- Apply one event to the state. -/
def applyOp (s : AppState) : Op → AppState
  | Op.increment => increment s
  | Op.add text now => appAddTodo text now s
  | Op.toggle id => appToggleTodo id s
  | Op.delete id => appDeleteTodo id s

/-- Run a sequence of events from a state, in dispatch order. -/
def run (s : AppState) : List Op → AppState
  | [] => s
  | op :: ops => run (applyOp s op) ops

/-- The ids of the records in a list, in order. -/
def todoIds (todos : List Todo) : List Nat :=
  todos.map fun t => t.id

/-- The `Date.now()` values consumed by the `add` events of a run, in order. -/
def addNows : List Op → List Nat
  | [] => []
  | Op.add _ now :: ops => now :: addNows ops
  | _ :: ops => addNows ops

/-- Number of `add` events whose text has non-empty trim (the ones that
actually append a record). -/
def successfulAdds : List Op → Nat
  | [] => 0
  | Op.add text _ :: ops => (if jsTrim text ≠ "" then 1 else 0) + successfulAdds ops
  | _ :: ops => successfulAdds ops

/-- Number of `delete` events whose id is present in the list at the moment
the event is applied. -/
def successfulDeletes : AppState → List Op → Nat
  | _, [] => 0
  | s, op :: ops =>
    (match op with
      | Op.delete id => if id ∈ todoIds s.todos then 1 else 0
      | _ => 0) + successfulDeletes (applyOp s op) ops

/-! ## Basic lemmas about the three list operations -/

/-- Toggling an id that matches no record leaves the list unchanged. -/
theorem toggleTodo_eq_self (id : Nat) (l : List Todo) (h : ∀ u ∈ l, u.id ≠ id) :
    toggleTodo id l = l := by
  induction l with
  | nil => rfl
  | cons u l ih =>
    simp only [toggleTodo, List.map_cons] at ih ⊢
    have hu : u.id ≠ id := h u (List.mem_cons_self u l)
    rw [if_neg hu, ih fun v hv => h v (List.mem_cons_of_mem u hv)]

/-- Deleting an id that matches no record leaves the list unchanged. -/
theorem deleteTodo_eq_self (id : Nat) (l : List Todo) (h : ∀ u ∈ l, u.id ≠ id) :
    deleteTodo id l = l := by
  induction l with
  | nil => rfl
  | cons u l ih =>
    simp only [deleteTodo, List.filter_cons] at ih ⊢
    have hu : u.id ≠ id := h u (List.mem_cons_self u l)
    simp [hu, ih fun v hv => h v (List.mem_cons_of_mem u hv)]

/-- An id absent from `todoIds l` matches no record of `l`. -/
theorem forall_ne_of_not_mem_todoIds (id : Nat) (l : List Todo)
    (h : id ∉ todoIds l) : ∀ u ∈ l, u.id ≠ id := by
  simp only [todoIds, List.mem_map, not_exists, not_and] at h
  exact h

/-! ## Claim theorems -/

/-- C1, as stated, is false of the code: `addTodo` stores the raw input
text, not its trim.  At input `"  hi  "` (non-empty trim) the appended
record's text is `"  hi  "`, not the trimmed `"hi"`. -/
theorem claim1_counterexample :
    jsTrim ("  hi  ") ≠ "" ∧
    addTodo ("  hi  ") 1 [] ≠ [{ id := 1, text := jsTrim ("  hi  "), completed := false }] := by
  decide

/-- C1 (amended): for every input text whose trim is non-empty, `addTodo`
appends to the end of the list a new record whose text is the RAW
(untrimmed) input text, with `completed := false` and the freshly supplied
id, leaving all existing records unchanged. -/
theorem claim1_addTodo_appends_raw_text (text : String) (now : Nat) (todos : List Todo)
    (h : jsTrim text ≠ "") :
    addTodo text now todos = todos ++ [{ id := now, text := text, completed := false }] := by
  simp [addTodo, h]

/-- Witness for the amended C1 at the concrete input `"buy milk"`. -/
theorem claim1_witness :
    jsTrim ("buy milk") ≠ "" ∧
    addTodo ("buy milk") 7 [{ id := 1, text := ("a"), completed := true }] =
      [{ id := 1, text := ("a"), completed := true },
       { id := 7, text := ("buy milk"), completed := false }] :=
  ⟨by decide, claim1_addTodo_appends_raw_text ("buy milk") 7 _ (by decide)⟩

/-- C4: `increment` replaces the counter by counter + 1 and leaves the todo
list unchanged; `addTodo`, `toggleTodo` and `deleteTodo` leave the counter
unchanged; consequently the todo-derived views are unchanged by an
increment. -/
theorem claim4_counter_frame (s : AppState) (text : String) (now i j : Nat) :
    (increment s).count = s.count + 1 ∧
    (increment s).todos = s.todos ∧
    (appAddTodo text now s).count = s.count ∧
    (appToggleTodo i s).count = s.count ∧
    (appDeleteTodo j s).count = s.count ∧
    expensiveTodoComputation (increment s).todos = expensiveTodoComputation s.todos ∧
    completedTodosCount (increment s).todos = completedTodosCount s.todos ∧
    totalCount (increment s).todos = totalCount s.todos :=
  ⟨rfl, rfl, rfl, rfl, rfl, rfl, rfl, rfl⟩

/-- C5: for every input text whose trim is empty, `addTodo` is a silent
no-op: the list (in particular its length) is unchanged and no failure is
signalled (the operation is a total function). -/
theorem claim5_empty_trim_noop (text : String) (now : Nat) (todos : List Todo)
    (h : jsTrim text = "") :
    addTodo text now todos = todos ∧
    (addTodo text now todos).length = todos.length := by
  constructor
  · simp [addTodo, h]
  · simp [addTodo, h]

/-- Witness for C5 at the whitespace-only input `"  "`. -/
theorem claim5_witness :
    jsTrim ("  ") = "" ∧
    (addTodo ("  ") 3 [{ id := 1, text := ("a"), completed := false }] =
       [{ id := 1, text := ("a"), completed := false }] ∧
     (addTodo ("  ") 3 [{ id := 1, text := ("a"), completed := false }]).length =
       ([{ id := 1, text := ("a"), completed := false }] : List Todo).length) :=
  ⟨by decide, claim5_empty_trim_noop ("  ") 3 _ (by decide)⟩

/-- C6: toggling or deleting an id that matches no record returns the list
unchanged with no error; in particular deleting any id from the empty list
yields the empty list. -/
theorem claim6_missing_id_noop (id : Nat) (todos : List Todo)
    (h : id ∉ todoIds todos) :
    toggleTodo id todos = todos ∧
    deleteTodo id todos = todos ∧
    deleteTodo id ([] : List Todo) = [] := by
  have hne := forall_ne_of_not_mem_todoIds id todos h
  exact ⟨toggleTodo_eq_self id todos hne, deleteTodo_eq_self id todos hne, rfl⟩

/-- Witness for C6: deleting and toggling id 9999 on a one-element list. -/
theorem claim6_witness :
    (9999 : Nat) ∉ todoIds [{ id := 1, text := ("a"), completed := false }] ∧
    (toggleTodo 9999 [{ id := 1, text := ("a"), completed := false }] =
       [{ id := 1, text := ("a"), completed := false }] ∧
     deleteTodo 9999 [{ id := 1, text := ("a"), completed := false }] =
       [{ id := 1, text := ("a"), completed := false }] ∧
     deleteTodo 9999 ([] : List Todo) = []) :=
  ⟨by decide, claim6_missing_id_noop 9999 _ (by decide)⟩

/-- C7: when exactly one record carries the given id (list split as
`l1 ++ t :: l2` with the id appearing only at `t`), `toggleTodo` returns the
same-length, same-order list in which `t.completed` is inverted and every
other record is unchanged. -/
theorem claim7_toggle_present (id : Nat) (l1 l2 : List Todo) (t : Todo)
    (hid : t.id = id) (h1 : ∀ u ∈ l1, u.id ≠ id) (h2 : ∀ u ∈ l2, u.id ≠ id) :
    toggleTodo id (l1 ++ t :: l2) =
      l1 ++ { t with completed := !t.completed } :: l2 ∧
    (toggleTodo id (l1 ++ t :: l2)).length = (l1 ++ t :: l2).length := by
  have e1 : toggleTodo id l1 = l1 := toggleTodo_eq_self id l1 h1
  have e2 : toggleTodo id l2 = l2 := toggleTodo_eq_self id l2 h2
  have he : toggleTodo id (l1 ++ t :: l2) =
      l1 ++ { t with completed := !t.completed } :: l2 := by
    simp only [toggleTodo] at e1 e2 ⊢
    rw [List.map_append, List.map_cons, if_pos hid, e1, e2]
  refine ⟨he, ?_⟩
  rw [he]
  simp

/-- Witness for C7 on a concrete three-element list with unique ids. -/
theorem claim7_witness :
    toggleTodo 2 ([{ id := 1, text := ("a"), completed := false }] ++
        { id := 2, text := ("b"), completed := false } ::
        [{ id := 3, text := ("c"), completed := true }]) =
      [{ id := 1, text := ("a"), completed := false }] ++
        { id := 2, text := ("b"), completed := true } ::
        [{ id := 3, text := ("c"), completed := true }] :=
  (claim7_toggle_present 2 _ _ _ rfl (by decide) (by decide)).1

/-- C8: toggling the same id twice in succession restores the original list
record-for-record, for every list and every id. -/
theorem claim8_double_toggle (id : Nat) (todos : List Todo) :
    toggleTodo id (toggleTodo id todos) = todos := by
  induction todos with
  | nil => rfl
  | cons t l ih =>
    obtain ⟨tid, ttext, tc⟩ := t
    simp only [toggleTodo, List.map_cons] at ih ⊢
    by_cases h : tid = id
    · simp only [h, if_pos rfl] at ih ⊢
      simp [Bool.not_not, ih]
    · simp only [if_neg h] at ih ⊢
      simp [h, ih]

/-- C9: the number of completed records never exceeds the total number of
records. -/
theorem claim9_completed_le_total (todos : List Todo) :
    completedTodosCount todos ≤ totalCount todos :=
  List.length_filter_le _ todos

/-- C10: `deleteTodo` returns exactly the subsequence of records whose id
differs from the given id, in their original order; in particular every
record carrying that id is removed — if several records share the id, a
single call removes all of them. -/
theorem claim10_delete_removes_all (id : Nat) (todos : List Todo) :
    (deleteTodo id todos).Sublist todos ∧
    (∀ t ∈ deleteTodo id todos, t.id ≠ id) ∧
    (deleteTodo id todos).length = todos.countP (fun t => t.id != id) := by
  refine ⟨List.filter_sublist todos, ?_, (List.countP_eq_length_filter _ _).symm⟩
  intro t ht
  have := List.of_mem_filter ht
  simpa using this

/-! ## Lemmas about runs of events -/

/-- Appending branch of `addTodo`, for non-empty trimmed text. -/
theorem addTodo_append (text : String) (now : Nat) (l : List Todo)
    (h : jsTrim text ≠ "") :
    addTodo text now l = l ++ [{ id := now, text := text, completed := false }] := by
  simp [addTodo, h]

/-- Rejecting branch of `addTodo`, for empty trimmed text. -/
theorem addTodo_noop (text : String) (now : Nat) (l : List Todo)
    (h : jsTrim text = "") :
    addTodo text now l = l := by
  simp [addTodo, h]

/-- Toggling preserves the list of ids. -/
theorem todoIds_toggleTodo (id : Nat) (l : List Todo) :
    todoIds (toggleTodo id l) = todoIds l := by
  induction l with
  | nil => rfl
  | cons u l ih =>
    simp only [toggleTodo, todoIds, List.map_cons] at ih ⊢
    by_cases h : u.id = id
    · rw [if_pos h]
      rw [ih]
  
    · rw [if_neg h, ih]

/-- The ids of the filtered list form a sublist of the original ids. -/
theorem todoIds_deleteTodo_sublist (id : Nat) (l : List Todo) :
    (todoIds (deleteTodo id l)).Sublist (todoIds l) :=
  List.Sublist.map _ (List.filter_sublist l)

/-- Deleting an id present in a duplicate-free list removes exactly one
record. -/
theorem deleteTodo_length_of_nodup_mem (id : Nat) (l : List Todo)
    (hnd : (todoIds l).Nodup) (hmem : id ∈ todoIds l) :
    (deleteTodo id l).length + 1 = l.length := by
  induction l with
  | nil => simp [todoIds] at hmem
  | cons u l ih =>
    simp only [todoIds, List.map_cons, List.nodup_cons] at hnd
    simp only [todoIds, List.map_cons, List.mem_cons] at hmem
    by_cases h : u.id = id
    · have hd : deleteTodo id (u :: l) = deleteTodo id l := by
        simp [deleteTodo, List.filter_cons, h]
      have hnm : id ∉ todoIds l := by
        rw [← h]
        exact hnd.1
      rw [hd, deleteTodo_eq_self id l (forall_ne_of_not_mem_todoIds id l hnm)]
      simp
    · have hd : deleteTodo id (u :: l) = u :: deleteTodo id l := by
        simp [deleteTodo, List.filter_cons, h]
      have hm : id ∈ todoIds l := by
        rcases hmem with h1 | h1
        · exact absurd h1.symm h
        · exact h1
      have := ih hnd.2 hm
      rw [hd]
      simp only [List.length_cons]
      omega

/-- Unfolding lemma: a `delete` event contributes 1 to `successfulDeletes`
exactly when its id is present at that moment. -/
theorem successfulDeletes_delete (s : AppState) (id : Nat) (ops : List Op) :
    successfulDeletes s (Op.delete id :: ops) =
      (if id ∈ todoIds s.todos then 1 else 0) +
        successfulDeletes (applyOp s (Op.delete id)) ops := rfl

/-- Unfolding lemma: an `increment` event contributes nothing to
`successfulDeletes`. -/
theorem successfulDeletes_increment (s : AppState) (ops : List Op) :
    successfulDeletes s (Op.increment :: ops) =
      successfulDeletes (applyOp s Op.increment) ops :=
  Nat.zero_add _

/-- Unfolding lemma: an `add` event contributes nothing to
`successfulDeletes`. -/
theorem successfulDeletes_add (s : AppState) (text : String) (now : Nat) (ops : List Op) :
    successfulDeletes s (Op.add text now :: ops) =
      successfulDeletes (applyOp s (Op.add text now)) ops :=
  Nat.zero_add _

/-- Unfolding lemma: a `toggle` event contributes nothing to
`successfulDeletes`. -/
theorem successfulDeletes_toggle (s : AppState) (id : Nat) (ops : List Op) :
    successfulDeletes s (Op.toggle id :: ops) =
      successfulDeletes (applyOp s (Op.toggle id)) ops :=
  Nat.zero_add _

/-- Main run invariant: if the ids currently present are pairwise distinct
and smaller than every upcoming `Date.now()` value, and those upcoming
values are strictly increasing (a strictly monotonic clock), then after the
run the ids are still pairwise distinct, and the final length equals the
initial length plus the number of appending adds minus the number of
successful deletes. -/
theorem run_invariant (ops : List Op) (s : AppState)
    (hnodup : (todoIds s.todos).Nodup)
    (hlt : ∀ i ∈ todoIds s.todos, ∀ n ∈ addNows ops, i < n)
    (hmono : (addNows ops).Pairwise (· < ·)) :
    (todoIds (run s ops).todos).Nodup ∧
    ((run s ops).todos.length : Int) + successfulDeletes s ops =
      s.todos.length + successfulAdds ops := by
  induction ops generalizing s with
  | nil =>
    refine ⟨hnodup, ?_⟩
    simp [run, successfulDeletes, successfulAdds]
  | cons op ops ih =>
    cases op with
    | increment =>
      have h := ih (applyOp s Op.increment) hnodup hlt hmono
      refine ⟨h.1, ?_⟩
      rw [show run s (Op.increment :: ops) = run (applyOp s Op.increment) ops from rfl,
        successfulDeletes_increment,
        show successfulAdds (Op.increment :: ops) = successfulAdds ops from rfl]
      exact h.2
    | toggle id =>
      have hids : todoIds (applyOp s (Op.toggle id)).todos = todoIds s.todos := by
        simp [applyOp, appToggleTodo, todoIds_toggleTodo]
      have h := ih (applyOp s (Op.toggle id)) (by rw [hids]; exact hnodup)
        (by rw [hids]; exact hlt) hmono
      refine ⟨h.1, ?_⟩
      rw [show run s (Op.toggle id :: ops) = run (applyOp s (Op.toggle id)) ops from rfl,
        successfulDeletes_toggle,
        show successfulAdds (Op.toggle id :: ops) = successfulAdds ops from rfl]
      have elen : (applyOp s (Op.toggle id)).todos.length = s.todos.length := by
        simp [applyOp, appToggleTodo, toggleTodo]
      have h2 := h.2
      omega
    | delete id =>
      have hsub : (todoIds (applyOp s (Op.delete id)).todos).Sublist (todoIds s.todos) := by
        simpa [applyOp, appDeleteTodo] using todoIds_deleteTodo_sublist id s.todos
      have h := ih (applyOp s (Op.delete id)) (hnodup.sublist hsub)
        (fun i hi n hn => hlt i (hsub.subset hi) n hn) hmono
      refine ⟨h.1, ?_⟩
      rw [show run s (Op.delete id :: ops) = run (applyOp s (Op.delete id)) ops from rfl,
        successfulDeletes_delete,
        show successfulAdds (Op.delete id :: ops) = successfulAdds ops from rfl]
      have h2 := h.2
      by_cases hmem : id ∈ todoIds s.todos
      · have elen : (applyOp s (Op.delete id)).todos.length + 1 = s.todos.length := by
          simpa [applyOp, appDeleteTodo] using
            deleteTodo_length_of_nodup_mem id s.todos hnodup hmem
        rw [if_pos hmem]
        omega
      · have elen : (applyOp s (Op.delete id)).todos.length = s.todos.length := by
          have e := deleteTodo_eq_self id s.todos (forall_ne_of_not_mem_todoIds id s.todos hmem)
          simp [applyOp, appDeleteTodo, e]
        rw [if_neg hmem]
        omega
    | add text now =>
      by_cases htext : jsTrim text = ""
      · have est : applyOp s (Op.add text now) = s := by
          simp [applyOp, appAddTodo, addTodo_noop text now s.todos htext]
        have hlt2 : ∀ i ∈ todoIds s.todos, ∀ n ∈ addNows ops, i < n :=
          fun i hi n hn => hlt i hi n (List.mem_cons_of_mem now hn)
        have h := ih s hnodup hlt2 (List.pairwise_cons.mp hmono).2
        rw [show run s (Op.add text now :: ops) = run (applyOp s (Op.add text now)) ops from rfl,
          successfulDeletes_add, est]
        refine ⟨h.1, ?_⟩
        have eadds : successfulAdds (Op.add text now :: ops) = successfulAdds ops := by
          simp [successfulAdds, htext]
        rw [eadds]
        exact h.2
      · have etodos : (applyOp s (Op.add text now)).todos =
            s.todos ++ [{ id := now, text := text, completed := false }] := by
          simp [applyOp, appAddTodo, addTodo_append text now s.todos htext]
        have eids : todoIds (applyOp s (Op.add text now)).todos = todoIds s.todos ++ [now] := by
          rw [etodos]
          simp [todoIds]
        have hdisj : (todoIds s.todos).Disjoint [now] := by
          intro a ha hb
          rw [List.mem_singleton] at hb
          subst hb
          exact lt_irrefl a (hlt a ha a (List.mem_cons_self a (addNows ops)))
        have hnodup2 : (todoIds (applyOp s (Op.add text now)).todos).Nodup := by
          rw [eids]
          exact List.nodup_append.mpr ⟨hnodup, List.nodup_singleton now, hdisj⟩
        have hlt2 : ∀ i ∈ todoIds (applyOp s (Op.add text now)).todos,
            ∀ n ∈ addNows ops, i < n := by
          rw [eids]
          intro i hi n hn
          rcases List.mem_append.mp hi with h1 | h1
          · exact hlt i h1 n (List.mem_cons_of_mem now hn)
          · rw [List.mem_singleton] at h1
            subst h1
            exact (List.pairwise_cons.mp hmono).1 n hn
        have h := ih (applyOp s (Op.add text now)) hnodup2 hlt2 (List.pairwise_cons.mp hmono).2
        refine ⟨h.1, ?_⟩
        rw [show run s (Op.add text now :: ops) = run (applyOp s (Op.add text now)) ops from rfl,
          successfulDeletes_add]
        have eadds : successfulAdds (Op.add text now :: ops) = 1 + successfulAdds ops := by
          simp [successfulAdds, htext]
        have elen : (applyOp s (Op.add text now)).todos.length = s.todos.length + 1 := by
          rw [etodos]
          simp
        have h2 := h.2
        rw [eadds]
        omega

/-- C2, as stated, is false of the code: the id is `Date.now()`, so two add
events dispatched in the same millisecond receive the same id, and the
fresh id then equals the id of a record already in the list. -/
theorem claim2_counterexample :
    ¬ (todoIds (run initialState [Op.add ("a") 5, Op.add ("b") 5]).todos).Nodup := by
  decide

/-- C2 (amended): provided the `Date.now()` values supplied to the add
events of the session are strictly increasing (a strictly monotonic clock,
as the spec suggests with a monotonic counter or time source), every state
reachable from the initial empty list by increments, adds, toggles and
deletes has pairwise-distinct record ids. -/
theorem claim2_ids_nodup (ops : List Op)
    (hmono : (addNows ops).Pairwise (· < ·)) :
    (todoIds (run initialState ops).todos).Nodup :=
  (run_invariant ops initialState (by simp [initialState, todoIds])
    (by simp [initialState, todoIds]) hmono).1

/-- Witness for the amended C2 on a concrete four-event run. -/
theorem claim2_witness :
    (addNows [Op.add ("a") 1, Op.add ("b") 2, Op.toggle 1, Op.delete 2]).Pairwise (· < ·) ∧
    (todoIds (run initialState
      [Op.add ("a") 1, Op.add ("b") 2, Op.toggle 1, Op.delete 2]).todos).Nodup :=
  ⟨by decide, claim2_ids_nodup _ (by decide)⟩

/-- C3, as stated, is false of the code: after two adds in the same
millisecond (both records get id 5), one successful delete of id 5 removes
both records, so the final count 0 differs from adds minus successful
deletes, 2 - 1 = 1. -/
theorem claim3_counterexample :
    (totalCount (run initialState
        [Op.add ("a") 5, Op.add ("b") 5, Op.delete 5]).todos : Int) ≠
      (successfulAdds [Op.add ("a") 5, Op.add ("b") 5, Op.delete 5] : Int) -
        successfulDeletes initialState [Op.add ("a") 5, Op.add ("b") 5, Op.delete 5] := by
  decide

/-- C3 (amended): provided the `Date.now()` values supplied to the add
events of the session are strictly increasing (so ids never collide),
`totalCount` after any run from the empty list equals the number of add
events with non-empty trimmed text minus the number of delete events whose
id was present at the time of the call. -/
theorem claim3_totalCount (ops : List Op)
    (hmono : (addNows ops).Pairwise (· < ·)) :
    (totalCount (run initialState ops).todos : Int) =
      (successfulAdds ops : Int) - successfulDeletes initialState ops := by
  have h := (run_invariant ops initialState (by simp [initialState, todoIds])
    (by simp [initialState, todoIds]) hmono).2
  simp only [initialState, List.length_nil] at h
  unfold totalCount
  simp only [initialState]
  omega

/-- Witness for the amended C3 on a concrete five-event run. -/
theorem claim3_witness :
    (addNows [Op.add ("a") 1, Op.add ("  ") 2, Op.add ("b") 3,
        Op.delete 1, Op.delete 9999]).Pairwise (· < ·) ∧
    (totalCount (run initialState [Op.add ("a") 1, Op.add ("  ") 2, Op.add ("b") 3,
        Op.delete 1, Op.delete 9999]).todos : Int) =
      (successfulAdds [Op.add ("a") 1, Op.add ("  ") 2, Op.add ("b") 3,
          Op.delete 1, Op.delete 9999] : Int) -
        successfulDeletes initialState [Op.add ("a") 1, Op.add ("  ") 2, Op.add ("b") 3,
          Op.delete 1, Op.delete 9999] :=
  ⟨by decide, claim3_totalCount _ (by decide)⟩
